import Mathlib

set_option linter.unusedVariables false

/-!
Verification development for the `mongo-rest-router` package.

The JavaScript runtime state is embedded explicitly: documents are object
graphs living in a heap (a finite map from addresses to objects), so that
the aliasing produced by the shallow spread `newObject = {...origObject}`
in `applyPatchRequest` (src/with-db.ts, apply-patch-request part) and the
in-place field assignments `target[key] = value` are observable, exactly as
they are to a JavaScript caller.  Machine numbers are modelled as rationals
(the numeric literals handled by this code are exact in both).
-/

namespace MongoRestRouter

/-- Primitive JavaScript values appearing in patched documents. -/
inductive JsPrim where
  | undef
  | null
  | bool (b : Bool)
  | num (q : ℚ)
  | str (s : String)
  deriving DecidableEq

/-- A JavaScript value: a primitive, or a reference to a heap object. -/
inductive JsVal where
  | prim (p : JsPrim)
  | ref (a : ℕ)
  deriving DecidableEq

/-- Heap objects.  `obj` is a plain object (own enumerable string keys, in
insertion order).  `arr` is an array; `props` holds the non-index string
properties a JavaScript array can additionally carry (the code under
verification only ever writes such properties onto arrays, never numeric
indices, because the assignment key in `applyPatchRequest` is always the
full query key).  `oid` is a `mongodb.ObjectId` instance together with any
extra own properties assigned onto it. -/
inductive JsObj where
  | obj (fields : List (String × JsVal))
  | arr (elems : List JsVal) (props : List (String × JsVal))
  | oid (hex : String) (props : List (String × JsVal))
  deriving DecidableEq

/-- First-match lookup in an association list (JavaScript object keys are
unique, so first match is the only match for object field lists). -/
def lookupEntry {κ α : Type} [DecidableEq κ] : List (κ × α) → κ → Option α
  | [], _ => none
  | (k', v') :: rest, k => if k' = k then some v' else lookupEntry rest k

/-- JavaScript property write on an association list: an existing key keeps
its position and gets the new value, a new key is appended (JavaScript
string-key insertion order). -/
def setEntry {κ α : Type} [DecidableEq κ] : List (κ × α) → κ → α → List (κ × α)
  | [], k, v => [(k, v)]
  | (k', v') :: rest, k, v =>
    if k' = k then (k, v) :: rest else (k', v') :: setEntry rest k v

instance {ε α : Type} [DecidableEq ε] [DecidableEq α] : DecidableEq (Except ε α) := fun a b =>
  match a, b with
  | Except.ok x, Except.ok y =>
    if h : x = y then isTrue (by rw [h]) else isFalse (by simp [h])
  | Except.error x, Except.error y =>
    if h : x = y then isTrue (by rw [h]) else isFalse (by simp [h])
  | Except.ok _, Except.error _ => isFalse (by simp)
  | Except.error _, Except.ok _ => isFalse (by simp)

/-- The JavaScript heap: addresses to objects. -/
abbrev Heap := List (ℕ × JsObj)

def heapFind (h : Heap) (a : ℕ) : Option JsObj := lookupEntry h a

def heapSet (h : Heap) (a : ℕ) (o : JsObj) : Heap := setEntry h a o

def maxAddr (h : Heap) : ℕ := h.foldr (fun e m => max e.1 m) 0

/-- An address not used by `h`. -/
def freshAddr (h : Heap) : ℕ := maxAddr h + 1

/-- Allocate a new object, returning the extended heap and its address. -/
def heapAlloc (h : Heap) (o : JsObj) : Heap × ℕ :=
  ((freshAddr h, o) :: h, freshAddr h)

/-! ### JavaScript string and number builtins used by the source -/

def jsIsWs (c : Char) : Bool :=
  c = ' ' || c = '\t' || c = '\n' || c = '\r'

/-- `String.prototype.split(sep)` for a single-character separator. -/
def jsSplitAux (sep : Char) : List Char → List Char → List String
  | [], acc => [String.mk acc.reverse]
  | c :: rest, acc =>
    if c = sep then String.mk acc.reverse :: jsSplitAux sep rest []
    else jsSplitAux sep rest (c :: acc)

def jsSplit (s : String) (sep : Char) : List String := jsSplitAux sep s.data []

/-- `String.prototype.replace(pat, rep)` with a string pattern: replaces only
the FIRST occurrence of `pat` (this is the JavaScript semantics the source
relies on in `getPatchTarget`). -/
def jsReplaceFirstAux (pat rep : List Char) : List Char → List Char
  | [] => []
  | c :: rest =>
    if pat.isPrefixOf (c :: rest) then rep ++ (c :: rest).drop pat.length
    else c :: jsReplaceFirstAux pat rep rest

def jsReplaceFirst (s pat rep : String) : String :=
  -- JavaScript `"x".replace("", r)` would prepend `r`; the source only uses
  -- the nonempty patterns "~0" and "~1", for which the aux covers all cases.
  if pat.isEmpty then String.mk (rep.data ++ s.data)
  else String.mk (jsReplaceFirstAux pat.data rep.data s.data)

/-- `String.prototype.slice(start, end)` with JavaScript index normalization
(negative indices count from the end, results are clamped). -/
def jsSlice (s : String) (start stop : Int) : String :=
  let len : Int := s.length
  let norm : Int → Int := fun i => if i < 0 then max (len + i) 0 else min i len
  let a := norm start
  let b := norm stop
  if a < b then String.mk ((s.data.drop a.toNat).take (b - a).toNat) else ""

def digitsToNat (ds : List Char) : ℕ :=
  ds.foldl (fun n c => n * 10 + (c.toNat - ('0').toNat)) 0

/-- `parseInt(s)` (radix 10): leading whitespace, optional sign, then the
longest digit prefix; no digits gives NaN, modelled as `none`. -/
def jsParseInt (s : String) : Option Int :=
  let cs := s.data.dropWhile jsIsWs
  let signed : Bool × List Char :=
    match cs with
    | '-' :: rest => (true, rest)
    | '+' :: rest => (false, rest)
    | rest => (false, rest)
  let ds := signed.2.takeWhile Char.isDigit
  if ds.isEmpty then none
  else some (if signed.1 then -(digitsToNat ds : Int) else (digitsToNat ds : Int))

/-- The rational number `±m * 10^e`, assembled with `mkRat` over integer
arithmetic (the same value `sign * mantissa * 10^exponent` a decimal
literal denotes, in a form the kernel evaluates). -/
def decimalToRat (neg : Bool) (m : ℕ) (e : Int) : ℚ :=
  let sm : Int := if neg then -(m : Int) else (m : Int)
  if 0 ≤ e then mkRat (sm * (10 : Int) ^ e.toNat) 1
  else mkRat sm ((10 : ℕ) ^ (-e).toNat)

/-- Result of `parseFloat`: NaN, an infinity, or a finite value. -/
inductive JsNumber where
  | nan
  | posInf
  | negInf
  | fin (q : ℚ)
  deriving DecidableEq

/-- `parseFloat(s)`: leading whitespace, optional sign, then the longest
prefix shaped like `Infinity`, or `digits [. digits] [e [sign] digits]`
(an exponent without digits is not consumed, as in JavaScript). -/
def jsParseFloat (s : String) : JsNumber :=
  let cs := s.data.dropWhile jsIsWs
  let signed : Bool × List Char :=
    match cs with
    | '-' :: rest => (true, rest)
    | '+' :: rest => (false, rest)
    | rest => (false, rest)
  let neg := signed.1
  let cs1 := signed.2
  if ("Infinity").data.isPrefixOf cs1 then
    if neg then JsNumber.negInf else JsNumber.posInf
  else
    let intDs := cs1.takeWhile Char.isDigit
    let rest1 := cs1.dropWhile Char.isDigit
    let fracPart : List Char × List Char :=
      match rest1 with
      | '.' :: t => (t.takeWhile Char.isDigit, t.dropWhile Char.isDigit)
      | _ => ([], rest1)
    let fracDs := fracPart.1
    let rest2 := fracPart.2
    if intDs.isEmpty && fracDs.isEmpty then JsNumber.nan
    else
      let expVal : Int :=
        match rest2 with
        | 'e' :: t => jsParseFloatExp t
        | 'E' :: t => jsParseFloatExp t
        | _ => 0
      -- intPart.fracPart * 10^expVal, i.e. all digits over 10^(fracLen - exp)
      JsNumber.fin (decimalToRat neg (digitsToNat (intDs ++ fracDs)) (expVal - fracDs.length))
where
  /-- Exponent digits after `e`/`E`; an exponent with no digits contributes 0
  (JavaScript stops the numeric prefix before the `e`). -/
  jsParseFloatExp (t : List Char) : Int :=
    let signed : Bool × List Char :=
      match t with
      | '-' :: r => (true, r)
      | '+' :: r => (false, r)
      | r => (false, r)
    let ds := signed.2.takeWhile Char.isDigit
    if ds.isEmpty then 0
    else if signed.1 then -(digitsToNat ds : Int) else (digitsToNat ds : Int)

/-- A string that is the canonical decimal representation of an array index,
as used by JavaScript property lookup on strings and arrays. -/
def canonicalIndex (k : String) : Option ℕ :=
  match k.toNat? with
  | some i => if toString i = k then some i else none
  | none => none

/-- Property read on a primitive string (`"abc"[k]`): a canonical in-range
index yields the one-character string, `length` yields the length, anything
else is `undefined`. -/
def stringProp (s : String) (k : String) : JsVal :=
  if k = ("length") then JsVal.prim (JsPrim.num (s.length : ℚ))
  else
    match canonicalIndex k with
    | some i =>
      match s.data.get? i with
      | some c => JsVal.prim (JsPrim.str (String.mk [c]))
      | none => JsVal.prim JsPrim.undef
    | none => JsVal.prim JsPrim.undef

/-! ### Literal coercion (src/with-db.ts, apply-patch-request part, lines 104-133)

The coercion is written inline in the query-parameter loop of
`applyPatchRequest`; each branch ends in an assignment `target[key] = v`.
`coerceQueryValue` is the value stored by the last assignment the branch
structure executes for a given raw string. -/

/-- The quoted-string test of the source:
`value[0] == '"' && value[0] == value[value.length-1]`. -/
def isQuotedJs (v : String) : Bool :=
  match v.data with
  | [] => false
  | c :: rest =>
    c = '"' && (match (c :: rest).getLast? with
                | some d => decide (c = d)
                | none => false)

/-- The value assigned for one raw query-string token.  Mirrors the branch
order of the source: the four literal tokens; the quoted-string branch with
its `value.slice(1, value.length-2)`; the `parseFloat` branch guarded by
`n < Infinity && n > -Infinity`; and finally the date/string tail.  In the
source the date branch (`const d = new Date(value); if (!isNaN(d.getTime()))
target[key] = d`) has no `return`, so execution always falls through to
`target[key] = value`: the raw string immediately overwrites the same key,
and the stored value is the raw string whether or not the date parses.  The
net store is therefore the raw string, which is what this definition
returns for that tail. -/
def coerceQueryValue (value : String) : JsVal :=
  if value = ("undefined") then JsVal.prim JsPrim.undef
  else if value = ("null") then JsVal.prim JsPrim.null
  else if value = ("true") then JsVal.prim (JsPrim.bool true)
  else if value = ("false") then JsVal.prim (JsPrim.bool false)
  else if isQuotedJs value then
    JsVal.prim (JsPrim.str (jsSlice value 1 ((value.length : Int) - 2)))
  else
    match jsParseFloat value with
    | JsNumber.fin q => JsVal.prim (JsPrim.num q)
    | _ => JsVal.prim (JsPrim.str value)

/-! ### Path resolution (`getPatchTarget`, lines 67-82) -/

/-- The string-to-segments step of `getPatchTarget`:
`keys.split('/').filter(x=>!!x).map(x=>x.replace('~0', '/').replace('~1', '~'))`.
Note the source replaces only the first occurrence of each pattern and maps
`~0` to `/` and `~1` to `~`. -/
def pathToKeys (key : String) : List String :=
  ((jsSplit key '/').filter (fun x => x ≠ "")).map
    (fun x => jsReplaceFirst (jsReplaceFirst x ("~0") ("/")) ("~1") ("~"))

/-- `['number', 'bigint', 'string', 'boolean'].includes(typeof o)`:
`undefined` has typeof `undefined` and `null` and references have typeof
`object`, so only the three primitive carriers answer true. -/
def typeofIsPrimitive (o : JsVal) : Bool :=
  match o with
  | JsVal.prim (JsPrim.num _) => true
  | JsVal.prim (JsPrim.str _) => true
  | JsVal.prim (JsPrim.bool _) => true
  | _ => false

/-- One JavaScript error taxonomy value for this development. -/
structure ErrorObject where
  keyword : String
  instancePath : String
  schemaPath : String
  params : List String
  message : String
  deriving DecidableEq

/-- Abort causes of a JSON-Patch application (spec section 4.4 semantics). -/
inductive PatchError where
  | testFailed
  | pathNotFound
  | invalidOperation
  | invalidPatch
  deriving DecidableEq

/-- Exceptions observable from `applyPatchRequest` and its helpers. -/
inductive JsErr where
  /-- A TypeError thrown by the runtime (property access on `null`, calling a
  missing method such as `toHexString` on a non-ObjectId, ...). -/
  | typeError
  /-- The SyntaxError thrown by `JSON.parse`. -/
  | jsSyntaxError
  /-- An ajv `ValidationError` carrying its error set. -/
  | validationError (errors : List ErrorObject)
  /-- The exception thrown by the JSON-Patch applier. -/
  | patch (e : PatchError)
  deriving DecidableEq

/-- Array element read `o[index]` with `index = parseInt(k)`: an in-range
index yields the element; a NaN, negative or out-of-range index names an
absent property and yields `undefined` (the non-index `props` of an array
in this development never carry numeric-like keys, see `JsObj.arr`). -/
def arrIndexGet (elems : List JsVal) (idx : Option Int) : JsVal :=
  match idx with
  | some i =>
    if i < 0 then JsVal.prim JsPrim.undef
    else
      match elems.get? i.toNat with
      | some v => v
      | none => JsVal.prim JsPrim.undef
  | none => JsVal.prim JsPrim.undef

/-- `getPatchTarget(o, keys)` for an already-split key list, one-to-one with
the source (lines 67-82): `undefined` in, `undefined` out; with at least two
keys remaining it descends via `o[parseInt(keys[0])]` on arrays and
`o[keys[0]]` otherwise (property access on `null` throws a TypeError, on a
primitive string it can hit an index or `length`, on other primitives it
yields `undefined`); with at most one key left it returns `undefined` when
`typeof o` is a primitive carrier and `o` itself otherwise.  A dangling
address cannot occur for heaps built by this development; it is mapped to a
TypeError. -/
def getPatchTarget (h : Heap) : JsVal → List String → Except JsErr JsVal
  | JsVal.prim JsPrim.undef, _ => Except.ok (JsVal.prim JsPrim.undef)
  | o, k1 :: k2 :: rest =>
    match o with
    | JsVal.prim JsPrim.null => Except.error JsErr.typeError
    | JsVal.prim (JsPrim.str s) => getPatchTarget h (stringProp s k1) (k2 :: rest)
    | JsVal.prim _ => getPatchTarget h (JsVal.prim JsPrim.undef) (k2 :: rest)
    | JsVal.ref a =>
      match heapFind h a with
      | some (JsObj.arr elems _) =>
        getPatchTarget h (arrIndexGet elems (jsParseInt k1)) (k2 :: rest)
      | some (JsObj.obj fields) =>
        getPatchTarget h ((lookupEntry fields k1).getD (JsVal.prim JsPrim.undef)) (k2 :: rest)
      | some (JsObj.oid _ props) =>
        getPatchTarget h ((lookupEntry props k1).getD (JsVal.prim JsPrim.undef)) (k2 :: rest)
      | none => Except.error JsErr.typeError
  | o, _ =>
    if typeofIsPrimitive o then Except.ok (JsVal.prim JsPrim.undef) else Except.ok o

/-- JavaScript property read `v[k]` (used for `origObject._id` and
`newObject._id` in the final identity check). -/
def jsGetProp (h : Heap) (v : JsVal) (k : String) : Except JsErr JsVal :=
  match v with
  | JsVal.prim JsPrim.undef => Except.error JsErr.typeError
  | JsVal.prim JsPrim.null => Except.error JsErr.typeError
  | JsVal.prim (JsPrim.str s) => Except.ok (stringProp s k)
  | JsVal.prim _ => Except.ok (JsVal.prim JsPrim.undef)
  | JsVal.ref a =>
    match heapFind h a with
    | some (JsObj.obj fields) =>
      Except.ok ((lookupEntry fields k).getD (JsVal.prim JsPrim.undef))
    | some (JsObj.oid _ props) =>
      Except.ok ((lookupEntry props k).getD (JsVal.prim JsPrim.undef))
    | some (JsObj.arr elems props) =>
      if k = ("length") then Except.ok (JsVal.prim (JsPrim.num (elems.length : ℚ)))
      else
        match canonicalIndex k with
        | some i =>
          match elems.get? i with
          | some v' => Except.ok v'
          | none => Except.ok (JsVal.prim JsPrim.undef)
        | none => Except.ok ((lookupEntry props k).getD (JsVal.prim JsPrim.undef))
    | none => Except.error JsErr.typeError

/-- JavaScript property write `target[k] = v`.  A write to `null` throws a
TypeError (`Cannot set properties of null`); the only targets
`applyPatchRequest` can pass here are `null` and heap references, since
`undefined` is skipped by the caller and primitive carriers were already
mapped to `undefined` by `getPatchTarget`.  Array writes go to the string
`props` because the assignment key is the raw query key, which contains a
`/` whenever it resolves into a nested (possibly array) container and hence
is never a canonical index or `length`. -/
def jsSetProp (h : Heap) (target : JsVal) (k : String) (v : JsVal) : Except JsErr Heap :=
  match target with
  | JsVal.ref a =>
    match heapFind h a with
    | some (JsObj.obj fields) => Except.ok (heapSet h a (JsObj.obj (setEntry fields k v)))
    | some (JsObj.oid hex props) => Except.ok (heapSet h a (JsObj.oid hex (setEntry props k v)))
    | some (JsObj.arr elems props) => Except.ok (heapSet h a (JsObj.arr elems (setEntry props k v)))
    | none => Except.error JsErr.typeError
  | _ => Except.error JsErr.typeError

/-- `toHexString()` on a value: defined exactly on `ObjectId` instances;
anything else has no such method and the call throws a TypeError. -/
def jsToHexString (h : Heap) (v : JsVal) : Except JsErr String :=
  match v with
  | JsVal.ref a =>
    match heapFind h a with
    | some (JsObj.oid hex _) => Except.ok hex
    | _ => Except.error JsErr.typeError
  | _ => Except.error JsErr.typeError

/-- The single error record built at lines 143-149 of the source. -/
def idReadOnlyError : ErrorObject :=
  { keyword := ""
    instancePath := "/_id"
    schemaPath := ""
    params := []
    message := "The _id field is read only." }

/-- The final identity comparison of `applyPatchRequest` (lines 142-151):
`origObject._id.toHexString() != newObject._id.toHexString()`, evaluated
left to right; a mismatch throws `ValidationError([idReadOnlyError])`. -/
def idCheck (h : Heap) (origAddr : ℕ) (newObject : JsVal) : Except JsErr Unit :=
  match jsGetProp h (JsVal.ref origAddr) ("_id") with
  | Except.error e => Except.error e
  | Except.ok oi =>
    match jsToHexString h oi with
    | Except.error e => Except.error e
    | Except.ok oh =>
      match jsGetProp h newObject ("_id") with
      | Except.error e => Except.error e
      | Except.ok ni =>
        match jsToHexString h ni with
        | Except.error e => Except.error e
        | Except.ok nh =>
          if oh ≠ nh then Except.error (JsErr.validationError [idReadOnlyError])
          else Except.ok ()

/-- One iteration of the query-parameter loop body (lines 99-134) for the
pair `(k, value)`: resolve the target, skip silently when it is
`undefined`, otherwise store the coerced value at `target[k]` — note the
source indexes with the full raw query key `k`, not with a path segment.
The heap reached so far is returned even when an exception escapes, since a
JavaScript throw does not roll back prior mutations. -/
def applyQueryOne (h : Heap) (newAddr : ℕ) (k value : String) : Heap × Option JsErr :=
  match getPatchTarget h (JsVal.ref newAddr) (pathToKeys k) with
  | Except.error e => (h, some e)
  | Except.ok target =>
    if target = JsVal.prim JsPrim.undef then (h, none)
    else
      match jsSetProp h target k (coerceQueryValue value) with
      | Except.ok h' => (h', none)
      | Except.error e => (h, some e)

/-- `Object.keys(req.query).filter(x=>!!x).forEach(...)`: iterate the query
pairs in order, dropping empty keys; the first exception aborts the loop. -/
def applyQueryPatch (h : Heap) (newAddr : ℕ) : List (String × String) → Heap × Option JsErr
  | [] => (h, none)
  | (k, value) :: rest =>
    if k = "" then applyQueryPatch h newAddr rest
    else
      match applyQueryOne h newAddr k value with
      | (h', none) => applyQueryPatch h' newAddr rest
      | (h', some e) => (h', some e)

/-! ### Pure document trees and `JSON.parse` -/

/-- A pure (heap-free) document tree: the shape of parsed JSON values and of
reified documents.  `oidV` represents a `mongodb.ObjectId` by its 24-hex
string. -/
inductive PVal where
  | undef
  | null
  | bool (b : Bool)
  | num (q : ℚ)
  | str (s : String)
  | oidV (hex : String)
  | parr (elems : List PVal)
  | pobj (fields : List (String × PVal))

mutual

/-- Structural (deep) equality of document trees, the comparison used by the
JSON-Patch `test` operation. -/
def PVal.beq : PVal → PVal → Bool
  | PVal.undef, PVal.undef => true
  | PVal.null, PVal.null => true
  | PVal.bool a, PVal.bool b => a = b
  | PVal.num a, PVal.num b => a = b
  | PVal.str a, PVal.str b => a = b
  | PVal.oidV a, PVal.oidV b => a = b
  | PVal.parr as, PVal.parr bs => PVal.beqList as bs
  | PVal.pobj as, PVal.pobj bs => PVal.beqFields as bs
  | _, _ => false

def PVal.beqList : List PVal → List PVal → Bool
  | [], [] => true
  | a :: as, b :: bs => PVal.beq a b && PVal.beqList as bs
  | _, _ => false

def PVal.beqFields : List (String × PVal) → List (String × PVal) → Bool
  | [], [] => true
  | a :: as, b :: bs => a.1 = b.1 && PVal.beq a.2 b.2 && PVal.beqFields as bs
  | _, _ => false

end

def hexDigitVal (c : Char) : Option ℕ :=
  if c.isDigit then some (c.toNat - ('0').toNat)
  else if 'a' ≤ c && c ≤ 'f' then some (c.toNat - ('a').toNat + 10)
  else if 'A' ≤ c && c ≤ 'F' then some (c.toNat - ('A').toNat + 10)
  else none

/-- Body of a JSON string literal after the opening quote, with the common
escapes.  A `\uXXXX` escape outside the valid scalar range is rejected
(JavaScript would produce a lone surrogate; no input in this development
contains one). -/
def parseStringChars : List Char → List Char → Option (String × List Char)
  | [], _ => none
  | '"' :: rest, acc => some (String.mk acc.reverse, rest)
  | '\\' :: esc, acc =>
    match esc with
    | '"' :: r => parseStringChars r ('"' :: acc)
    | '\\' :: r => parseStringChars r ('\\' :: acc)
    | '/' :: r => parseStringChars r ('/' :: acc)
    | 'b' :: r => parseStringChars r ('\x08' :: acc)
    | 'f' :: r => parseStringChars r ('\x0c' :: acc)
    | 'n' :: r => parseStringChars r ('\n' :: acc)
    | 'r' :: r => parseStringChars r ('\x0d' :: acc)
    | 't' :: r => parseStringChars r ('\t' :: acc)
    | 'u' :: a :: b :: c :: d :: r =>
      match hexDigitVal a, hexDigitVal b, hexDigitVal c, hexDigitVal d with
      | some x1, some x2, some x3, some x4 =>
        let n := ((x1 * 16 + x2) * 16 + x3) * 16 + x4
        if hn : n.isValidChar then parseStringChars r (Char.ofNat n :: acc)
        else none
      | _, _, _, _ => none
    | _ => none
  | c :: rest, acc => parseStringChars rest (c :: acc)

/-- Strict JSON number grammar: `-? (0 | [1-9][0-9]*) (. [0-9]+)? ([eE][+-]?[0-9]+)?`. -/
def parseJsonNumber (cs : List Char) : Option (ℚ × List Char) := do
  let signed : Bool × List Char :=
    match cs with
    | '-' :: r => (true, r)
    | r => (false, r)
  let intPart : Option (List Char × List Char) :=
    match signed.2 with
    | '0' :: r => some (['0'], r)
    | c :: r => if c.isDigit then some (c :: r.takeWhile Char.isDigit, r.dropWhile Char.isDigit) else none
    | [] => none
  let (intDs, rest1) ← intPart
  let fracPart : Option (List Char × List Char) :=
    match rest1 with
    | '.' :: t =>
      let ds := t.takeWhile Char.isDigit
      if ds.isEmpty then none else some (ds, t.dropWhile Char.isDigit)
    | _ => some ([], rest1)
  let (fracDs, rest2) ← fracPart
  let expPart : Option (Int × List Char) :=
    match rest2 with
    | 'e' :: t => parseJsonExp t
    | 'E' :: t => parseJsonExp t
    | _ => some (0, rest2)
  let (expVal, rest3) ← expPart
  let neg := signed.1
  some (decimalToRat neg (digitsToNat (intDs ++ fracDs)) (expVal - fracDs.length), rest3)
where
  parseJsonExp (t : List Char) : Option (Int × List Char) :=
    let signed : Bool × List Char :=
      match t with
      | '-' :: r => (true, r)
      | '+' :: r => (false, r)
      | r => (false, r)
    let ds := signed.2.takeWhile Char.isDigit
    if ds.isEmpty then none
    else
      let v : Int := digitsToNat ds
      some (if signed.1 then -v else v, signed.2.dropWhile Char.isDigit)

mutual

/-- One JSON value, fuel-bounded (the fuel strictly exceeds any possible
number of recursive steps for the given input). -/
def parseVal : ℕ → List Char → Option (PVal × List Char)
  | 0, _ => none
  | fuel + 1, cs =>
    match cs.dropWhile jsIsWs with
    | 'n' :: 'u' :: 'l' :: 'l' :: r => some (PVal.null, r)
    | 't' :: 'r' :: 'u' :: 'e' :: r => some (PVal.bool true, r)
    | 'f' :: 'a' :: 'l' :: 's' :: 'e' :: r => some (PVal.bool false, r)
    | '"' :: r =>
      match parseStringChars r [] with
      | some (s, r') => some (PVal.str s, r')
      | none => none
    | '[' :: r => parseArrItems fuel r true []
    | '{' :: r => parseObjItems fuel r true []
    | cs' =>
      match parseJsonNumber cs' with
      | some (q, r) => some (PVal.num q, r)
      | none => none

/-- Elements of a JSON array after `[`; `acc` is in reverse order. -/
def parseArrItems : ℕ → List Char → Bool → List PVal → Option (PVal × List Char)
  | 0, _, _, _ => none
  | fuel + 1, cs, isFirst, acc =>
    let cs1 := cs.dropWhile jsIsWs
    match cs1, isFirst with
    | ']' :: r, true => some (PVal.parr [], r)
    | _, _ =>
      match parseVal fuel cs1 with
      | some (v, r) =>
        match r.dropWhile jsIsWs with
        | ']' :: r2 => some (PVal.parr (v :: acc).reverse, r2)
        | ',' :: r2 => parseArrItems fuel r2 false (v :: acc)
        | _ => none
      | none => none

/-- Members of a JSON object after the opening brace; `acc` is in insertion
order and duplicate keys overwrite in place, as `JSON.parse` does. -/
def parseObjItems : ℕ → List Char → Bool → List (String × PVal) → Option (PVal × List Char)
  | 0, _, _, _ => none
  | fuel + 1, cs, isFirst, acc =>
    let cs1 := cs.dropWhile jsIsWs
    match cs1, isFirst with
    | '}' :: r, true => some (PVal.pobj [], r)
    | _, _ =>
      match cs1 with
      | '"' :: r =>
        match parseStringChars r [] with
        | some (k, r1) =>
          match r1.dropWhile jsIsWs with
          | ':' :: r2 =>
            match parseVal fuel r2 with
            | some (v, r3) =>
              match r3.dropWhile jsIsWs with
              | '}' :: r4 => some (PVal.pobj (setEntry acc k v), r4)
              | ',' :: r4 => parseObjItems fuel r4 false (setEntry acc k v)
              | _ => none
            | none => none
          | _ => none
        | none => none
      | _ => none

end

/-- `JSON.parse(s)`: a single JSON value followed only by whitespace;
anything else throws a SyntaxError, modelled as `none`. -/
def parseJson (s : String) : Option PVal :=
  match parseVal (2 * s.length + 4) s.data with
  | some (v, rest) => if (rest.dropWhile jsIsWs).isEmpty then some v else none
  | none => none

/-! ### The JSON-Patch operation schema (src json-patch-schema part, lines 1-42) -/

/-- The pointer pattern of the schema, `^(/([^~/]|~[01])*)*$`, as a direct
scanner: the string is empty or starts with `/`, and every `~` is followed
by `0` or `1` (a `/` simply starts the next group). -/
def tildeRun : List Char → Bool
  | [] => true
  | '~' :: '0' :: r => tildeRun r
  | '~' :: '1' :: r => tildeRun r
  | '~' :: _ => false
  | _ :: r => tildeRun r

def pointerPatternOk (s : String) : Bool :=
  s = "" ||
    (match s.data with
     | '/' :: _ => tildeRun s.data
     | _ => false)

def isPointerString : PVal → Bool
  | PVal.str s => pointerPatternOk s
  | _ => false

/-- First `oneOf` branch: `op` in add/replace/test with `path` and `value`
required (`value` may be any JSON value, including `null`). -/
def matchesAddReplaceTest (e : PVal) : Bool :=
  match e with
  | PVal.pobj fs =>
    (match lookupEntry fs ("op") with
     | some (PVal.str o) => o = "add" || o = "replace" || o = "test"
     | _ => false)
    && (match lookupEntry fs ("path") with
        | some p => isPointerString p
        | none => false)
    && (lookupEntry fs ("value")).isSome
  | _ => false

/-- Second `oneOf` branch: `op` is remove with `path` required. -/
def matchesRemove (e : PVal) : Bool :=
  match e with
  | PVal.pobj fs =>
    (match lookupEntry fs ("op") with
     | some (PVal.str o) => o = "remove"
     | _ => false)
    && (match lookupEntry fs ("path") with
        | some p => isPointerString p
        | none => false)
  | _ => false

/-- Third `oneOf` branch: `op` in move/copy with `from` and `path` required. -/
def matchesMoveCopy (e : PVal) : Bool :=
  match e with
  | PVal.pobj fs =>
    (match lookupEntry fs ("op") with
     | some (PVal.str o) => o = "move" || o = "copy"
     | _ => false)
    && (match lookupEntry fs ("from") with
        | some p => isPointerString p
        | none => false)
    && (match lookupEntry fs ("path") with
        | some p => isPointerString p
        | none => false)
  | _ => false

def jsonPatchOneOfCount (e : PVal) : ℕ :=
  (if matchesAddReplaceTest e then 1 else 0)
    + (if matchesRemove e then 1 else 0)
    + (if matchesMoveCopy e then 1 else 0)

/-- Whether a parsed value conforms to `jsonPatchSchema`: an array each of
whose items satisfies exactly one of the three operation shapes (`oneOf`).
The schema also carries `$async: true`, which does not constrain data; it
makes ajv compile the schema to a Promise-returning validator. -/
def jsonPatchSchemaAccepts : PVal → Bool
  | PVal.parr items => items.all (fun e => jsonPatchOneOfCount e = 1)
  | _ => false

/-! ### JSON-Patch application

Modelled from the spec: the source delegates application to the external
`fast-json-patch` dependency (`applyPatch(origObject, patch).newDocument`),
whose code is not part of this repository.  Sections 4.4 and 5 of the spec
describe the applier as producing a fresh document by applying the
operations sequentially in array order with all-or-nothing failure, and
give the semantics of the six operations; the definitions below follow
those words. -/

/-- Modelled from the spec: JSON-Pointer segment unescaping, every `~1`
becoming `/` and every `~0` becoming `~` (spec section 4.1 and RFC 6901),
as a single left-to-right scan. -/
def specUnescapeChars : List Char → List Char
  | [] => []
  | '~' :: '1' :: r => '/' :: specUnescapeChars r
  | '~' :: '0' :: r => '~' :: specUnescapeChars r
  | c :: r => c :: specUnescapeChars r

def specUnescapeSegment (s : String) : String := String.mk (specUnescapeChars s.data)

/-- Modelled from the spec: a pointer is split on `/`, the empty leading
segment is discarded, and each segment is unescaped. -/
def specPointerSegments (p : String) : List String :=
  match jsSplit p '/' with
  | "" :: rest => rest.map specUnescapeSegment
  | l => l.map specUnescapeSegment

def getAtPtr : PVal → List String → Option PVal
  | v, [] => some v
  | PVal.pobj fs, k :: rest =>
    match lookupEntry fs k with
    | some v => getAtPtr v rest
    | none => none
  | PVal.parr es, k :: rest =>
    match canonicalIndex k with
    | some i =>
      match es.get? i with
      | some v => getAtPtr v rest
      | none => none
    | none => none
  | _, _ => none

/-- Modelled from the spec: `add` inserts or overwrites at the path; array
insertion shifts subsequent elements and `-` appends; intermediate
locations must exist. -/
def addAtPtr : PVal → List String → PVal → Option PVal
  | _, [], v => some v
  | PVal.pobj fs, [k], v => some (PVal.pobj (setEntry fs k v))
  | PVal.parr es, [k], v =>
    if k = ("-") then some (PVal.parr (es ++ [v]))
    else
      match canonicalIndex k with
      | some i =>
        if i ≤ es.length then some (PVal.parr (es.take i ++ v :: es.drop i)) else none
      | none => none
  | PVal.pobj fs, k :: rest, v =>
    match lookupEntry fs k with
    | some child => (addAtPtr child rest v).map (fun c => PVal.pobj (setEntry fs k c))
    | none => none
  | PVal.parr es, k :: rest, v =>
    match canonicalIndex k with
    | some i =>
      match es.get? i with
      | some child => (addAtPtr child rest v).map (fun c => PVal.parr (es.set i c))
      | none => none
    | none => none
  | _, _, _ => none

def removeEntry {κ α : Type} [DecidableEq κ] : List (κ × α) → κ → Option (List (κ × α))
  | [], _ => none
  | (k', v') :: rest, k =>
    if k' = k then some rest else (removeEntry rest k).map (fun l => (k', v') :: l)

/-- Modelled from the spec: `remove` deletes at the path and must fail when
the path does not resolve; array removal shifts subsequent elements.
Removing the document root is a failure. -/
def removeAtPtr : PVal → List String → Option PVal
  | _, [] => none
  | PVal.pobj fs, [k] => (removeEntry fs k).map PVal.pobj
  | PVal.parr es, [k] =>
    match canonicalIndex k with
    | some i =>
      if i < es.length then some (PVal.parr (es.take i ++ es.drop (i + 1))) else none
    | none => none
  | PVal.pobj fs, k :: rest =>
    match lookupEntry fs k with
    | some child => (removeAtPtr child rest).map (fun c => PVal.pobj (setEntry fs k c))
    | none => none
  | PVal.parr es, k :: rest =>
    match canonicalIndex k with
    | some i =>
      match es.get? i with
      | some child => (removeAtPtr child rest).map (fun c => PVal.parr (es.set i c))
      | none => none
    | none => none
  | _, _ => none

/-- Modelled from the spec: `replace` requires the path to already exist. -/
def replaceAtPtr : PVal → List String → PVal → Option PVal
  | _, [], v => some v
  | PVal.pobj fs, [k], v =>
    if (lookupEntry fs k).isSome then some (PVal.pobj (setEntry fs k v)) else none
  | PVal.parr es, [k], v =>
    match canonicalIndex k with
    | some i => if i < es.length then some (PVal.parr (es.set i v)) else none
    | none => none
  | PVal.pobj fs, k :: rest, v =>
    match lookupEntry fs k with
    | some child => (replaceAtPtr child rest v).map (fun c => PVal.pobj (setEntry fs k c))
    | none => none
  | PVal.parr es, k :: rest, v =>
    match canonicalIndex k with
    | some i =>
      match es.get? i with
      | some child => (replaceAtPtr child rest v).map (fun c => PVal.parr (es.set i c))
      | none => none
    | none => none
  | _, _, _ => none

inductive PatchOp where
  | add (path : String) (value : PVal)
  | remove (path : String)
  | replace (path : String) (value : PVal)
  | move (src : String) (path : String)
  | copy (src : String) (path : String)
  | test (path : String) (value : PVal)

/-- Read one parsed patch element as an operation (its `op`, `path`, `from`
and `value` members). -/
def toPatchOp (e : PVal) : Option PatchOp :=
  match e with
  | PVal.pobj fs =>
    match lookupEntry fs ("op") with
    | some (PVal.str o) =>
      if o = "add" then
        match lookupEntry fs ("path"), lookupEntry fs ("value") with
        | some (PVal.str p), some v => some (PatchOp.add p v)
        | _, _ => none
      else if o = "replace" then
        match lookupEntry fs ("path"), lookupEntry fs ("value") with
        | some (PVal.str p), some v => some (PatchOp.replace p v)
        | _, _ => none
      else if o = "test" then
        match lookupEntry fs ("path"), lookupEntry fs ("value") with
        | some (PVal.str p), some v => some (PatchOp.test p v)
        | _, _ => none
      else if o = "remove" then
        match lookupEntry fs ("path") with
        | some (PVal.str p) => some (PatchOp.remove p)
        | _ => none
      else if o = "move" then
        match lookupEntry fs ("from"), lookupEntry fs ("path") with
        | some (PVal.str s), some (PVal.str p) => some (PatchOp.move s p)
        | _, _ => none
      else if o = "copy" then
        match lookupEntry fs ("from"), lookupEntry fs ("path") with
        | some (PVal.str s), some (PVal.str p) => some (PatchOp.copy s p)
        | _, _ => none
      else none
    | _ => none
  | _ => none

/-- Modelled from the spec: one operation, standard JSON-Patch semantics;
`test` compares deep equality and aborts on mismatch (spec section 4.4). -/
def applyOp (doc : PVal) (op : PatchOp) : Except PatchError PVal :=
  match op with
  | PatchOp.add p v =>
    match addAtPtr doc (specPointerSegments p) v with
    | some d => Except.ok d
    | none => Except.error PatchError.pathNotFound
  | PatchOp.remove p =>
    match removeAtPtr doc (specPointerSegments p) with
    | some d => Except.ok d
    | none => Except.error PatchError.pathNotFound
  | PatchOp.replace p v =>
    match replaceAtPtr doc (specPointerSegments p) v with
    | some d => Except.ok d
    | none => Except.error PatchError.pathNotFound
  | PatchOp.move s p =>
    match getAtPtr doc (specPointerSegments s) with
    | some v =>
      match removeAtPtr doc (specPointerSegments s) with
      | some d1 =>
        match addAtPtr d1 (specPointerSegments p) v with
        | some d2 => Except.ok d2
        | none => Except.error PatchError.pathNotFound
      | none => Except.error PatchError.pathNotFound
    | none => Except.error PatchError.pathNotFound
  | PatchOp.copy s p =>
    match getAtPtr doc (specPointerSegments s) with
    | some v =>
      match addAtPtr doc (specPointerSegments p) v with
      | some d => Except.ok d
      | none => Except.error PatchError.pathNotFound
    | none => Except.error PatchError.pathNotFound
  | PatchOp.test p v =>
    match getAtPtr doc (specPointerSegments p) with
    | some v' => if PVal.beq v' v then Except.ok doc else Except.error PatchError.testFailed
    | none => Except.error PatchError.pathNotFound

/-- Modelled from the spec: sequential application in array order; any
single-operation failure aborts the entire patch. -/
def applyOps : PVal → List PatchOp → Except PatchError PVal
  | doc, [] => Except.ok doc
  | doc, op :: rest =>
    match applyOp doc op with
    | Except.error e => Except.error e
    | Except.ok d2 => applyOps d2 rest

/-- Modelled from the spec: the whole applier on a parsed patch document. -/
def applyJsonPatchDoc (doc : PVal) (patch : PVal) : Except PatchError PVal :=
  match patch with
  | PVal.parr items =>
    match items.mapM toPatchOp with
    | some ops => applyOps doc ops
    | none => Except.error PatchError.invalidOperation
  | _ => Except.error PatchError.invalidPatch

/-! ### Reading a heap document out as a tree, and allocating a tree -/

/-- Read the object graph rooted at `v` into a pure tree.  The fuel bounds
the ref-chain depth; heaps built by this development are acyclic and of
depth at most their length, so `h.length + 1` fuel always suffices. -/
def reify (h : Heap) : ℕ → JsVal → Option PVal
  | 0, _ => none
  | _, JsVal.prim JsPrim.undef => some PVal.undef
  | _, JsVal.prim JsPrim.null => some PVal.null
  | _, JsVal.prim (JsPrim.bool b) => some (PVal.bool b)
  | _, JsVal.prim (JsPrim.num q) => some (PVal.num q)
  | _, JsVal.prim (JsPrim.str s) => some (PVal.str s)
  | fuel + 1, JsVal.ref a =>
    match heapFind h a with
    | some (JsObj.oid hex _) => some (PVal.oidV hex)
    | some (JsObj.arr elems _) => (elems.mapM (reify h fuel)).map PVal.parr
    | some (JsObj.obj fields) =>
      (fields.mapM (fun kv => (reify h fuel kv.2).map (fun p => (kv.1, p)))).map PVal.pobj
    | none => none

mutual

/-- Allocate a pure tree as fresh heap objects, returning the value for it. -/
def allocTree : Heap → PVal → Heap × JsVal
  | h, PVal.undef => (h, JsVal.prim JsPrim.undef)
  | h, PVal.null => (h, JsVal.prim JsPrim.null)
  | h, PVal.bool b => (h, JsVal.prim (JsPrim.bool b))
  | h, PVal.num q => (h, JsVal.prim (JsPrim.num q))
  | h, PVal.str s => (h, JsVal.prim (JsPrim.str s))
  | h, PVal.oidV hex =>
    let r := heapAlloc h (JsObj.oid hex [])
    (r.1, JsVal.ref r.2)
  | h, PVal.parr es =>
    let r := allocTreeList h es
    let r2 := heapAlloc r.1 (JsObj.arr r.2 [])
    (r2.1, JsVal.ref r2.2)
  | h, PVal.pobj fs =>
    let r := allocTreeFields h fs
    let r2 := heapAlloc r.1 (JsObj.obj r.2)
    (r2.1, JsVal.ref r2.2)

def allocTreeList : Heap → List PVal → Heap × List JsVal
  | h, [] => (h, [])
  | h, v :: rest =>
    let r := allocTree h v
    let r2 := allocTreeList r.1 rest
    (r2.1, r.2 :: r2.2)

def allocTreeFields : Heap → List (String × PVal) → Heap × List (String × JsVal)
  | h, [] => (h, [])
  | h, kv :: rest =>
    let r := allocTree h kv.2
    let r2 := allocTreeFields r.1 rest
    (r2.1, (kv.1, r.2) :: r2.2)

end

/-! ### `applyPatchRequest` (src/with-db.ts, apply-patch-request part, lines 93-153) -/

/-- The parts of an express `Request` that `applyPatchRequest` reads.  The
body is carried as the raw byte string of the request (the spec section 4.4
contract takes `patchDoc : bytes`); `Object.keys(req.body).length` is zero
exactly when that string is empty. -/
structure PatchRequest where
  query : List (String × String)
  body : String
  deriving DecidableEq

/-- `applyPatchRequest(origObject, req)`.  The initial
`let newObject = { _id: new ObjectId() }` of line 94 is dead: both branches
rebind `newObject` before it is ever read, so the fresh random ObjectId is
not modelled.  The query branch clones the original with a shallow spread
(the field list is copied, nested references are shared) and runs the query
loop; the JSON branch parses the body (`JSON.parse` SyntaxError on
failure), then calls the compiled `validatePatchSchema(req.body)` — the
schema is `$async`, so that call returns a Promise whose result (and whose
rejection, when the data does not conform) is discarded by the synchronous
code, and it is moreover applied to the unparsed body string rather than to
`patch`; it therefore has no effect on this function and is modelled as a
no-op — and finally delegates to the JSON-Patch applier.  The identity
check of lines 142-151 runs on either branch.  The returned heap reflects
all mutations performed before any exception, as it does for a JavaScript
caller. -/
def applyPatchRequest (h : Heap) (origAddr : ℕ) (req : PatchRequest) :
    Heap × Except JsErr JsVal :=
  if req.body.isEmpty then
    match heapFind h origAddr with
    | some (JsObj.obj fields) =>
      match applyQueryPatch ((freshAddr h, JsObj.obj fields) :: h) (freshAddr h) req.query with
      | (h2, some e) => (h2, Except.error e)
      | (h2, none) =>
        match idCheck h2 origAddr (JsVal.ref (freshAddr h)) with
        | Except.error e => (h2, Except.error e)
        | Except.ok _ => (h2, Except.ok (JsVal.ref (freshAddr h)))
    | _ =>
      -- The typed contract of the source (`origObject: HasId`) makes the
      -- original a document object; other heap values cannot reach here.
      (h, Except.error JsErr.typeError)
  else
    match parseJson req.body with
    | none => (h, Except.error JsErr.jsSyntaxError)
    | some patch =>
      match reify h (h.length + 1) (JsVal.ref origAddr) with
      | none => (h, Except.error JsErr.typeError)
      | some doc =>
        match applyJsonPatchDoc doc patch with
        | Except.error e => (h, Except.error (JsErr.patch e))
        | Except.ok newDoc =>
          let r := allocTree h newDoc
          match idCheck r.1 origAddr r.2 with
          | Except.error e => (r.1, Except.error e)
          | Except.ok _ => (r.1, Except.ok r.2)

/-! ### Schema gate (src get-validate part, lines 1-65) -/

/-- A JSON schema as the source manipulates it: its `properties` map (each
property schema kept as a JSON tree) and its `required` list. -/
structure SchemaModel where
  properties : List (String × PVal)
  required : List String

/-- `{ type: "string" }`. -/
def requiredIdSchema : PVal := PVal.pobj [("type", PVal.str "string")]

/-- `{ type: "string", format: "date-time", nullable: true }`. -/
def optionalDateSchema : PVal :=
  PVal.pobj [("type", PVal.str "string"), ("format", PVal.str "date-time"),
             ("nullable", PVal.bool true)]

/-- The optional `dateFields` override record. -/
structure DateFieldsOpt where
  added : Option String
  lastModified : Option String
  deleted : Option String

/-- The resolved date-field names used by `validate`. -/
structure DateFieldNames where
  added : String
  lastModified : String
  deleted : String
  deriving DecidableEq

/-- `{ added:'added', lastModified:'lastModified', deleted:'deleted',
...dateFieldOverrides }`. -/
def resolveDateFields (o : DateFieldsOpt) : DateFieldNames :=
  { added := o.added.getD ("added")
    lastModified := o.lastModified.getD ("lastModified")
    deleted := o.deleted.getD ("deleted") }

/-- `withId(schema)` (lines 14-19): spread the properties with `_id` set to
`requiredIdSchema` and a `$async: true` entry (the source places `$async`
inside `properties`, where it names a property rather than marking the
schema asynchronous), and drop `_id` from `required`. -/
def withId (schema : SchemaModel) : SchemaModel :=
  { schema with
    properties :=
      setEntry (setEntry schema.properties ("_id") requiredIdSchema) ("$async") (PVal.bool true)
    required := schema.required.filter (fun x => x ≠ "_id") }

/-- `withManagedDates(schema, dateFields)` (lines 22-29). -/
def withManagedDates (schema : SchemaModel) (dateFields : DateFieldsOpt) : SchemaModel :=
  { schema with
    properties :=
      setEntry
        (setEntry
          (setEntry schema.properties (dateFields.added.getD ("added")) optionalDateSchema)
          (dateFields.lastModified.getD ("lastModified")) optionalDateSchema)
        (dateFields.deleted.getD ("deleted")) optionalDateSchema }

/-- Modelled from the spec: the external Ajv validator interface (spec
section 1, "Schema validator": given a schema and a candidate document it
reports the validation verdict).  For a synchronous schema `ajv.validate`
returns this boolean and never throws; the development is parameterized by
an arbitrary verdict function so every possible validator behaviour is
covered. -/
abbrev AjvValidate := SchemaModel → PVal → Bool

/-- A verdict function reporting every payload invalid. -/
def ajvRejectAll : AjvValidate := fun _ _ => false

/-- A verdict function reporting every payload valid. -/
def ajvAcceptAll : AjvValidate := fun _ _ => true

/-- `delete p[k]` on a payload (a no-op on non-objects). -/
def deleteKey (p : PVal) (k : String) : PVal :=
  match p with
  | PVal.pobj fs => PVal.pobj (fs.filter (fun kv => kv.1 ≠ k))
  | other => other

/-- `validate(payload, options)` (lines 42-53 of the get-validate part):
when `allowManagedDates` is true (bound to `isUpdate`) the identity field
and the three managed-date fields are deleted from the payload; then
`ajv.validate(schema, payload)` is called — against the base, un-augmented
`schema` — and its boolean verdict is discarded, after which the (possibly
stripped) payload is returned.  The augmented `idSchema`/`dateSchema` built
by `getValidate` are never consulted, and no code path throws. -/
def validate (ajvValidate : AjvValidate) (schema : SchemaModel) (dateFields : DateFieldNames)
    (payload : PVal) (options : Option Bool) : PVal :=
  let isUpdate := options.getD false
  let p :=
    if isUpdate then
      deleteKey
        (deleteKey (deleteKey (deleteKey payload ("_id")) dateFields.added)
          dateFields.lastModified)
        dateFields.deleted
    else payload
  let verdict := ajvValidate schema p
  p

/-- `validateBulk(payload)` (lines 56-63): an array is passed element-wise
through `validate` inside a `forEach` whose results are discarded, and the
array itself is returned; a non-array payload is validated once and
wrapped in a singleton list.  Like `validate`, it has no failing path. -/
def validateBulk (ajvValidate : AjvValidate) (schema : SchemaModel) (dateFields : DateFieldNames)
    (payload : PVal) : List PVal :=
  match payload with
  | PVal.parr xs =>
    let results := xs.map (fun x => validate ajvValidate schema dateFields x none)
    xs
  | x =>
    let result := validate ajvValidate schema dateFields x none
    [x]

/-- The empty override record (`options` without `dateFields`). -/
def noDateFieldOverrides : DateFieldsOpt := ⟨none, none, none⟩

/-- `getValidate(schema, options)` (lines 34-64): resolves the date-field
names, builds `idSchema` and `dateSchema` (computed but unused by the
returned closures), and returns the `validate`/`validateBulk` pair closed
over the base schema. -/
def getValidate (ajvValidate : AjvValidate) (schema : SchemaModel)
    (dateFieldOverrides : Option DateFieldsOpt) :
    (PVal → Option Bool → PVal) × (PVal → List PVal) :=
  let dateFields := resolveDateFields (dateFieldOverrides.getD noDateFieldOverrides)
  let idSchema := withId schema
  let dateSchema :=
    withManagedDates (withId schema)
      ⟨some dateFields.added, some dateFields.lastModified, some dateFields.deleted⟩
  (fun payload opts => validate ajvValidate schema dateFields payload opts,
   fun payload => validateBulk ajvValidate schema dateFields payload)

/-! ### Association-list, heap and splitting lemmas -/

theorem lookupEntry_setEntry_self {κ α : Type} [DecidableEq κ] (l : List (κ × α)) (k : κ) (v : α) :
    lookupEntry (setEntry l k v) k = some v := by
  induction l with
  | nil => simp [setEntry, lookupEntry]
  | cons hd tl ih =>
    obtain ⟨k', v'⟩ := hd
    by_cases h : k' = k
    · subst h
      simp [setEntry, lookupEntry]
    · simp [setEntry, lookupEntry, h, ih]

theorem lookupEntry_setEntry_ne {κ α : Type} [DecidableEq κ] (l : List (κ × α)) (k k2 : κ) (v : α)
    (hne : k2 ≠ k) : lookupEntry (setEntry l k v) k2 = lookupEntry l k2 := by
  induction l with
  | nil => simp [setEntry, lookupEntry, Ne.symm hne]
  | cons hd tl ih =>
    obtain ⟨k', v'⟩ := hd
    by_cases h : k' = k
    · subst h
      simp [setEntry, lookupEntry, Ne.symm hne]
    · by_cases h2 : k' = k2
      · simp [setEntry, lookupEntry, h, h2, hne]
      · simp [setEntry, lookupEntry, h, h2, ih]

theorem heapFind_le_maxAddr (h : Heap) (a : ℕ) (o : JsObj) (hf : heapFind h a = some o) :
    a ≤ maxAddr h := by
  induction h with
  | nil => simp [heapFind, lookupEntry] at hf
  | cons hd tl ih =>
    obtain ⟨b, o'⟩ := hd
    rw [heapFind, lookupEntry] at hf
    by_cases hba : b = a
    · subst hba
      exact le_max_left _ _
    · rw [if_neg hba] at hf
      exact le_trans (ih hf) (le_max_right _ _)

theorem heapFind_ne_freshAddr (h : Heap) (a : ℕ) (o : JsObj) (hf : heapFind h a = some o) :
    a ≠ freshAddr h := by
  have := heapFind_le_maxAddr h a o hf
  unfold freshAddr
  omega

theorem stringMk_data (s : String) : String.mk s.data = s := rfl

theorem jsSplitAux_no_sep (sep : Char) (cs : List Char) (h : sep ∉ cs) :
    ∀ acc, jsSplitAux sep cs acc = [String.mk (acc.reverse ++ cs)] := by
  induction cs with
  | nil => intro acc; simp [jsSplitAux]
  | cons c rest ih =>
    intro acc
    have hc : ¬ c = sep := fun he => h (he ▸ List.mem_cons_self c rest)
    rw [jsSplitAux, if_neg hc, ih (fun hm => h (List.mem_cons_of_mem c hm)) (c :: acc)]
    simp

/-- A nonempty query key without a slash splits into itself as the single
segment, so `pathToKeys` returns a one-element list. -/
theorem pathToKeys_single (k : String) (hk : k ≠ "") (hs : ('/' : Char) ∉ k.data) :
    ∃ u, pathToKeys k = [u] := by
  refine ⟨jsReplaceFirst (jsReplaceFirst k ("~0") ("/")) ("~1") ("~"), ?_⟩
  unfold pathToKeys jsSplit
  rw [jsSplitAux_no_sep '/' k.data hs []]
  simp [stringMk_data, hk]

/-- With a single segment remaining, `getPatchTarget` hands back an object
reference unchanged (the final primitive test fails on a reference). -/
theorem getPatchTarget_ref_single (h : Heap) (a : ℕ) (u : String) :
    getPatchTarget h (JsVal.ref a) [u] = Except.ok (JsVal.ref a) := rfl

/-! ### Claim theorems -/

/-- Claim C10 (confirmed): for every query pair whose key is a single
nonempty slash-free segment that is absent from the original document,
`applyPatchRequest` resolves the root working copy itself as the container
and stores the coerced value under that key: the returned document carries
the new top-level field with the coerced value, instead of the key being
skipped as unknown. -/
theorem c10_single_segment_creates_field
    (h : Heap) (a oidA : ℕ) (fields : List (String × JsVal)) (hex : String) (k v : String)
    (hdoc : heapFind h a = some (JsObj.obj fields))
    (hidf : lookupEntry fields ("_id") = some (JsVal.ref oidA))
    (hoid : heapFind h oidA = some (JsObj.oid hex []))
    (hk : k ≠ "")
    (hns : ('/' : Char) ∉ k.data)
    (habs : lookupEntry fields k = none) :
    (applyPatchRequest h a ⟨[(k, v)], ""⟩).2 = Except.ok (JsVal.ref (freshAddr h)) ∧
      heapFind (applyPatchRequest h a ⟨[(k, v)], ""⟩).1 (freshAddr h) =
        some (JsObj.obj (setEntry fields k (coerceQueryValue v))) ∧
      lookupEntry (setEntry fields k (coerceQueryValue v)) k = some (coerceQueryValue v) := by
  obtain ⟨u, hu⟩ := pathToKeys_single k hk hns
  have hane : a ≠ freshAddr h := heapFind_ne_freshAddr h a _ hdoc
  have hoidne : oidA ≠ freshAddr h := heapFind_ne_freshAddr h oidA _ hoid
  have hkid : ("_id") ≠ k := by
    intro he
    rw [he, habs] at hidf
    exact Option.noConfusion hidf
  have hfind_h1_na :
      heapFind ((freshAddr h, JsObj.obj fields) :: h) (freshAddr h) = some (JsObj.obj fields) := by
    simp [heapFind, lookupEntry]
  have happly :
      applyQueryOne ((freshAddr h, JsObj.obj fields) :: h) (freshAddr h) k v =
        (heapSet ((freshAddr h, JsObj.obj fields) :: h) (freshAddr h)
          (JsObj.obj (setEntry fields k (coerceQueryValue v))), none) := by
    unfold applyQueryOne
    rw [hu, getPatchTarget_ref_single]
    simp [jsSetProp, hfind_h1_na]
  have hqp :
      applyQueryPatch ((freshAddr h, JsObj.obj fields) :: h) (freshAddr h) [(k, v)] =
        (heapSet ((freshAddr h, JsObj.obj fields) :: h) (freshAddr h)
          (JsObj.obj (setEntry fields k (coerceQueryValue v))), none) := by
    unfold applyQueryPatch
    rw [if_neg hk, happly]
    rfl
  have hfind_h2_na :
      heapFind
          (heapSet ((freshAddr h, JsObj.obj fields) :: h) (freshAddr h)
            (JsObj.obj (setEntry fields k (coerceQueryValue v)))) (freshAddr h) =
        some (JsObj.obj (setEntry fields k (coerceQueryValue v))) :=
    lookupEntry_setEntry_self _ _ _
  have hfind_h2_a :
      heapFind
          (heapSet ((freshAddr h, JsObj.obj fields) :: h) (freshAddr h)
            (JsObj.obj (setEntry fields k (coerceQueryValue v)))) a =
        some (JsObj.obj fields) := by
    show lookupEntry (setEntry _ _ _) a = _
    rw [lookupEntry_setEntry_ne _ _ _ _ hane, lookupEntry, if_neg (Ne.symm hane)]
    exact hdoc
  have hfind_h2_oid :
      heapFind
          (heapSet ((freshAddr h, JsObj.obj fields) :: h) (freshAddr h)
            (JsObj.obj (setEntry fields k (coerceQueryValue v)))) oidA =
        some (JsObj.oid hex []) := by
    show lookupEntry (setEntry _ _ _) oidA = _
    rw [lookupEntry_setEntry_ne _ _ _ _ hoidne, lookupEntry, if_neg (Ne.symm hoidne)]
    exact hoid
  have hg1 :
      jsGetProp
          (heapSet ((freshAddr h, JsObj.obj fields) :: h) (freshAddr h)
            (JsObj.obj (setEntry fields k (coerceQueryValue v)))) (JsVal.ref a) ("_id") =
        Except.ok (JsVal.ref oidA) := by
    simp only [jsGetProp, hfind_h2_a, hidf, Option.getD_some]
  have hg2 :
      jsToHexString
          (heapSet ((freshAddr h, JsObj.obj fields) :: h) (freshAddr h)
            (JsObj.obj (setEntry fields k (coerceQueryValue v)))) (JsVal.ref oidA) =
        Except.ok hex := by
    simp only [jsToHexString, hfind_h2_oid]
  have hg3 :
      jsGetProp
          (heapSet ((freshAddr h, JsObj.obj fields) :: h) (freshAddr h)
            (JsObj.obj (setEntry fields k (coerceQueryValue v)))) (JsVal.ref (freshAddr h))
          ("_id") =
        Except.ok (JsVal.ref oidA) := by
    simp only [jsGetProp, hfind_h2_na]
    rw [lookupEntry_setEntry_ne fields k ("_id") (coerceQueryValue v) hkid]
    simp [hidf]
  have hchk :
      idCheck
          (heapSet ((freshAddr h, JsObj.obj fields) :: h) (freshAddr h)
            (JsObj.obj (setEntry fields k (coerceQueryValue v)))) a (JsVal.ref (freshAddr h)) =
        Except.ok () := by
    simp only [idCheck, hg1, hg2, hg3]
    simp
  have hrun :
      applyPatchRequest h a ⟨[(k, v)], ""⟩ =
        (heapSet ((freshAddr h, JsObj.obj fields) :: h) (freshAddr h)
          (JsObj.obj (setEntry fields k (coerceQueryValue v))),
         Except.ok (JsVal.ref (freshAddr h))) := by
    unfold applyPatchRequest
    simp only [hdoc, hqp, hchk]
    rfl
  refine ⟨?_, ?_, lookupEntry_setEntry_self fields k (coerceQueryValue v)⟩
  · rw [hrun]
  · rw [hrun]
    exact hfind_h2_na

/-- Claim C10 witness: a concrete document holding only an ObjectId under
the identity field, patched with the single-segment query pair
name equals Joe, gains the top-level field with the coerced value. -/
theorem c10_single_segment_creates_field_witness :
    (applyPatchRequest
        [(0, JsObj.obj [(("_id"), JsVal.ref 1)]),
         (1, JsObj.oid ("0123456789abcdef01234567") [])] 0
        ⟨[(("name"), ("Joe"))], ""⟩).2 = Except.ok (JsVal.ref 2) ∧
      heapFind
          (applyPatchRequest
            [(0, JsObj.obj [(("_id"), JsVal.ref 1)]),
             (1, JsObj.oid ("0123456789abcdef01234567") [])] 0
            ⟨[(("name"), ("Joe"))], ""⟩).1 2 =
        some (JsObj.obj (setEntry [(("_id"), JsVal.ref 1)] ("name") (coerceQueryValue ("Joe")))) ∧
      lookupEntry (setEntry [(("_id"), JsVal.ref 1)] ("name") (coerceQueryValue ("Joe"))) ("name") =
        some (coerceQueryValue ("Joe")) :=
  c10_single_segment_creates_field
    [(0, JsObj.obj [(("_id"), JsVal.ref 1)]), (1, JsObj.oid ("0123456789abcdef01234567") [])]
    0 1 [(("_id"), JsVal.ref 1)] ("0123456789abcdef01234567") ("name") ("Joe")
    rfl rfl rfl (by decide) (by decide) rfl

/-- Claim C1 (code bug): a patch request that sets the identity field to a
different value does not raise the specified ValidationError with the
single read-only record for the identity path; the coerced replacement is
a string, strings have no `toHexString` method, and the comparison
`origObject._id.toHexString() != newObject._id.toHexString()` throws a
TypeError before the ValidationError of lines 142-151 can be built.  The
original document and its ObjectId are left as they were. -/
theorem c1_identity_change_raises_typeError :
    (applyPatchRequest
        [(0, JsObj.obj [(("_id"), JsVal.ref 1)]),
         (1, JsObj.oid ("aaaaaaaaaaaaaaaaaaaaaaaa") [])] 0
        ⟨[(("_id"), ("bbbbbbbbbbbbbbbbbbbbbbbb"))], ""⟩).2 = Except.error JsErr.typeError ∧
      (applyPatchRequest
          [(0, JsObj.obj [(("_id"), JsVal.ref 1)]),
           (1, JsObj.oid ("aaaaaaaaaaaaaaaaaaaaaaaa") [])] 0
          ⟨[(("_id"), ("bbbbbbbbbbbbbbbbbbbbbbbb"))], ""⟩).2 ≠
        Except.error (JsErr.validationError [idReadOnlyError]) ∧
      heapFind
          (applyPatchRequest
            [(0, JsObj.obj [(("_id"), JsVal.ref 1)]),
             (1, JsObj.oid ("aaaaaaaaaaaaaaaaaaaaaaaa") [])] 0
            ⟨[(("_id"), ("bbbbbbbbbbbbbbbbbbbbbbbb"))], ""⟩).1 0 =
        some (JsObj.obj [(("_id"), JsVal.ref 1)]) ∧
      heapFind
          (applyPatchRequest
            [(0, JsObj.obj [(("_id"), JsVal.ref 1)]),
             (1, JsObj.oid ("aaaaaaaaaaaaaaaaaaaaaaaa") [])] 0
            ⟨[(("_id"), ("bbbbbbbbbbbbbbbbbbbbbbbb"))], ""⟩).1 1 =
        some (JsObj.oid ("aaaaaaaaaaaaaaaaaaaaaaaa") []) :=
  ⟨rfl, by decide, rfl, rfl⟩

/-- Claim C2 (confirmed, applier modelled from the spec): JSON-Patch
operations apply sequentially in array order — application over an
appended list is the composition of applications — so any single-operation
failure in a prefix aborts the whole patch with an error carrying no
document.  At the concrete example of the spec, replace name to A followed
by a failing test of age against 999 on the document with name old and age
5, the whole request fails with the test error and the heap, hence the
original document, is unchanged. -/
theorem c2_patch_sequential_and_atomic :
    (∀ (doc : PVal) (pre suf : List PatchOp),
        applyOps doc (pre ++ suf) =
          match applyOps doc pre with
          | Except.error e => Except.error e
          | Except.ok d => applyOps d suf) ∧
      applyPatchRequest
          [(0, JsObj.obj [(("_id"), JsVal.ref 1), (("name"), JsVal.prim (JsPrim.str ("old"))),
            (("age"), JsVal.prim (JsPrim.num 5))]),
           (1, JsObj.oid ("dddddddddddddddddddddddd") [])] 0
          ⟨[], ("[\x7b\"op\":\"replace\",\"path\":\"/name\",\"value\":\"A\"\x7d,\x7b\"op\":\"test\",\"path\":\"/age\",\"value\":999\x7d]")⟩ =
        ([(0, JsObj.obj [(("_id"), JsVal.ref 1), (("name"), JsVal.prim (JsPrim.str ("old"))),
            (("age"), JsVal.prim (JsPrim.num 5))]),
          (1, JsObj.oid ("dddddddddddddddddddddddd") [])],
         Except.error (JsErr.patch PatchError.testFailed)) := by
  refine ⟨?_, rfl⟩
  intro doc pre suf
  induction pre generalizing doc with
  | nil => rfl
  | cons op pre ih =>
    cases happ : applyOp doc op with
    | error e => simp [applyOps, happ]
    | ok d2 => simp [applyOps, happ, ih]

/-- Claim C3 (code bug): the body parses as JSON and the parsed array does
not conform to the JSON-Patch operation grammar (its pointer contains the
forbidden escape with the digit two), yet `applyPatchRequest` applies the
operation and returns the patched document: the compiled `$async` schema
validator is handed the raw body and its Promise verdict is discarded, so
no schema failure is raised.  The syntax-error half does hold: an
unparseable body fails with the `JSON.parse` SyntaxError. -/
theorem c3_nonconforming_patch_still_applied :
    (parseJson ("[\x7b\"op\":\"add\",\"path\":\"/a~2b\",\"value\":1\x7d]")).map jsonPatchSchemaAccepts =
        some false ∧
      (applyPatchRequest
          [(0, JsObj.obj [(("_id"), JsVal.ref 1)]),
           (1, JsObj.oid ("eeeeeeeeeeeeeeeeeeeeeeee") [])] 0
          ⟨[], ("[\x7b\"op\":\"add\",\"path\":\"/a~2b\",\"value\":1\x7d]")⟩).2 =
        Except.ok (JsVal.ref 3) ∧
      jsGetProp
          (applyPatchRequest
            [(0, JsObj.obj [(("_id"), JsVal.ref 1)]),
             (1, JsObj.oid ("eeeeeeeeeeeeeeeeeeeeeeee") [])] 0
            ⟨[], ("[\x7b\"op\":\"add\",\"path\":\"/a~2b\",\"value\":1\x7d]")⟩).1
          (JsVal.ref 3) ("a~2b") =
        Except.ok (JsVal.prim (JsPrim.num 1)) ∧
      (applyPatchRequest
          [(0, JsObj.obj [(("_id"), JsVal.ref 1)]),
           (1, JsObj.oid ("eeeeeeeeeeeeeeeeeeeeeeee") [])] 0
          ⟨[], ("not json")⟩).2 =
        Except.error JsErr.jsSyntaxError :=
  ⟨rfl, rfl, rfl, rfl⟩

/-- Claim C4 (code bug): the literal coercion matches the reference rules
on the plain literals, but the quoted-string branch slices with
`value.slice(1, value.length-2)` and so drops the character before the
closing quote: the quoted token with the two digits four and two coerces
to the one-character string instead of the two-character string the claim
requires.  (The date branch of rules 4 and 5 lacks a `return` in the
source, so its assignment is immediately overwritten with the raw string;
see `coerceQueryValue`.) -/
theorem c4_literal_coercion_off_by_one :
    coerceQueryValue ("true") = JsVal.prim (JsPrim.bool true) ∧
      coerceQueryValue ("42") = JsVal.prim (JsPrim.num 42) ∧
      coerceQueryValue ("\"42\"") = JsVal.prim (JsPrim.str ("4")) ∧
      JsVal.prim (JsPrim.str ("4")) ≠ JsVal.prim (JsPrim.str ("42")) ∧
      coerceQueryValue ("not-a-date-or-number") =
        JsVal.prim (JsPrim.str ("not-a-date-or-number")) :=
  ⟨rfl, by decide, rfl, by decide, rfl⟩

/-- Claim C5 (code bug): for a two-segment query path the source resolves
the nested container correctly but then assigns with the raw full query
key (`target[key] = ...` where `key` is the whole query key), so the
nested container gains a field literally named with the slash-joined path
while the field named by the final segment keeps its old value. -/
theorem c5_query_patch_assigns_full_key :
    (applyPatchRequest
        [(0, JsObj.obj [(("_id"), JsVal.ref 1), (("address"), JsVal.ref 2)]),
         (1, JsObj.oid ("ffffffffffffffffffffffff") []),
         (2, JsObj.obj [(("city"), JsVal.prim (JsPrim.str ("old")))])] 0
        ⟨[(("address/city"), ("x"))], ""⟩).2 = Except.ok (JsVal.ref 3) ∧
      heapFind
          (applyPatchRequest
            [(0, JsObj.obj [(("_id"), JsVal.ref 1), (("address"), JsVal.ref 2)]),
             (1, JsObj.oid ("ffffffffffffffffffffffff") []),
             (2, JsObj.obj [(("city"), JsVal.prim (JsPrim.str ("old")))])] 0
            ⟨[(("address/city"), ("x"))], ""⟩).1 2 =
        some (JsObj.obj [(("city"), JsVal.prim (JsPrim.str ("old"))),
          (("address/city"), JsVal.prim (JsPrim.str ("x")))]) :=
  ⟨rfl, rfl⟩

/-- Claim C6 (code bug): the string-path splitter of `getPatchTarget` does
split on the slash and drop empty segments, but its per-segment unescaping
is `x.replace(~0, /).replace(~1, ~)`: the two escape mappings are swapped
relative to JSON-Pointer (and to the claim), and the JavaScript
string-pattern `replace` rewrites only the first occurrence.  On the path
with two tilde-one escapes in the first segment the code produces the
segment with one tilde and one literal escape, not the two slashes the
claim requires; on a segment with two tilde-zero escapes it produces a
slash. -/
theorem c6_path_unescape_swapped_and_first_only :
    pathToKeys ("a~1b~1c/d") = [("a~b~1c"), ("d")] ∧
      pathToKeys ("a~0b~0c") = [("a/b~0c")] :=
  ⟨rfl, rfl⟩

/-- Claim C7 (code bug): the working copy is the shallow spread
`{...origObject}`, so nested containers are shared with the original;
patching the nested path writes through the shared reference and the
original document observes the mutation (its nested object at address 2
gains the field, and the original still points to that address). -/
theorem c7_shallow_clone_aliases_nested :
    heapFind
        [(0, JsObj.obj [(("_id"), JsVal.ref 1), (("a"), JsVal.ref 2)]),
         (1, JsObj.oid ("cccccccccccccccccccccccc") []),
         (2, JsObj.obj [(("b"), JsVal.prim (JsPrim.num 1))])] 2 =
      some (JsObj.obj [(("b"), JsVal.prim (JsPrim.num 1))]) ∧
    (applyPatchRequest
        [(0, JsObj.obj [(("_id"), JsVal.ref 1), (("a"), JsVal.ref 2)]),
         (1, JsObj.oid ("cccccccccccccccccccccccc") []),
         (2, JsObj.obj [(("b"), JsVal.prim (JsPrim.num 1))])] 0
        ⟨[(("a/b"), ("2"))], ""⟩).2 = Except.ok (JsVal.ref 3) ∧
      heapFind
          (applyPatchRequest
            [(0, JsObj.obj [(("_id"), JsVal.ref 1), (("a"), JsVal.ref 2)]),
             (1, JsObj.oid ("cccccccccccccccccccccccc") []),
             (2, JsObj.obj [(("b"), JsVal.prim (JsPrim.num 1))])] 0
            ⟨[(("a/b"), ("2"))], ""⟩).1 2 =
        some (JsObj.obj [(("b"), JsVal.prim (JsPrim.num 1)),
          (("a/b"), JsVal.prim (JsPrim.num 2))]) ∧
      jsGetProp
          (applyPatchRequest
            [(0, JsObj.obj [(("_id"), JsVal.ref 1), (("a"), JsVal.ref 2)]),
             (1, JsObj.oid ("cccccccccccccccccccccccc") []),
             (2, JsObj.obj [(("b"), JsVal.prim (JsPrim.num 1))])] 0
            ⟨[(("a/b"), ("2"))], ""⟩).1 (JsVal.ref 0) ("a") =
        Except.ok (JsVal.ref 2) :=
  ⟨rfl, rfl, by decide, rfl⟩

/-- Claim C8 (code bug): `validateBulk` maps `validate` over the elements
inside a `forEach` whose results are discarded, and `validate` discards
the boolean verdict of `ajv.validate`, so for every verdict function —
including one reporting an element invalid — the call returns the input
array unchanged and never fails; there is no short-circuit and no error
path. -/
theorem c8_validateBulk_never_fails :
    (∀ (av : AjvValidate) (schema : SchemaModel) (df : DateFieldNames) (xs : List PVal),
        validateBulk av schema df (PVal.parr xs) = xs) ∧
      validateBulk ajvRejectAll
          ⟨[(("name"), PVal.pobj [(("type"), PVal.str ("string"))])], [("name")]⟩
          ⟨("added"), ("lastModified"), ("deleted")⟩
          (PVal.parr [PVal.pobj [(("name"), PVal.str ("ok"))], PVal.pobj [(("bad"), PVal.num 1)]]) =
        [PVal.pobj [(("name"), PVal.str ("ok"))], PVal.pobj [(("bad"), PVal.num 1)]] ∧
      ajvRejectAll ⟨[(("name"), PVal.pobj [(("type"), PVal.str ("string"))])], [("name")]⟩
          (PVal.pobj [(("bad"), PVal.num 1)]) = false := by
  refine ⟨?_, rfl, rfl⟩
  intro av schema df xs
  rfl

/-- Claim C9 (code bug): `validate` strips the identity and managed-date
fields exactly when `allowManagedDates` is TRUE (the claim and the spec
say when it is false), always validates against the base un-augmented
schema, and ignores the verdict, so a nonconforming payload is returned
rather than failing — the result does not depend on the validator at
all. -/
theorem c9_validate_strips_on_true_never_fails :
    validate ajvRejectAll
        ⟨[(("name"), PVal.pobj [(("type"), PVal.str ("string"))])], [("name")]⟩
        ⟨("added"), ("lastModified"), ("deleted")⟩
        (PVal.pobj [(("_id"), PVal.str ("x")), (("name"), PVal.str ("n")),
          (("added"), PVal.str ("2024-07-02T00:00:00Z"))])
        (some true) =
      PVal.pobj [(("name"), PVal.str ("n"))] ∧
    validate ajvRejectAll
        ⟨[(("name"), PVal.pobj [(("type"), PVal.str ("string"))])], [("name")]⟩
        ⟨("added"), ("lastModified"), ("deleted")⟩
        (PVal.pobj [(("_id"), PVal.str ("x")), (("name"), PVal.str ("n")),
          (("added"), PVal.str ("2024-07-02T00:00:00Z"))])
        (some false) =
      PVal.pobj [(("_id"), PVal.str ("x")), (("name"), PVal.str ("n")),
        (("added"), PVal.str ("2024-07-02T00:00:00Z"))] ∧
    (∀ (av av2 : AjvValidate) (s : SchemaModel) (df : DateFieldNames) (p : PVal)
        (o : Option Bool), validate av s df p o = validate av2 s df p o) := by
  refine ⟨rfl, rfl, ?_⟩
  intro av av2 s df p o
  rfl

end MongoRestRouter
